import Mathlib

/-!
Verification of the CPU stream-compaction core
(`StreamCompaction::CPU` from `src/stream_compaction/cpu.h`).

The repository ships only the header declaring
`scan(n, odata, idata, timed = 1)`, `compactWithoutScan(n, odata, idata)`
and `compactWithScan(n, odata, idata)`; the function bodies are modelled
here from the specification.  Buffers are embedded as `List Int`: an
operation receives the output buffer `odata` and the input buffer `idata`
and returns the new contents of the output buffer (plus the retained
count for the compaction operations).  A write `odata[j] = v` is
`List.set odata j v`, so writes past the end of the caller's buffer are
lost exactly as the caller-capacity contract warns.
-/

namespace StreamCompaction
namespace CPU

/-- Modelled from the spec (§4.1): the running-total loop of the exclusive
prefix sum.  `scanLoop acc l` emits the accumulator before adding each
element, so element `i` of the result is `acc` plus the sum of the first
`i` elements of `l`. -/
def scanLoop (acc : Int) : List Int → List Int
  | [] => []
  | x :: xs => acc :: scanLoop (acc + x) xs

/-- Modelled from the spec (§4.1): `scan(n, odata, idata, timed)`
overwrites `odata[0..n)` with the exclusive prefix sums of
`idata[0..n)` and leaves `odata[n..)` untouched.  The `timed` flag only
brackets the call with the Timer collaborator and never affects the
numeric result, so it is carried but unused. -/
def scan (n : Nat) (odata idata : List Int) (timed : Bool) : List Int :=
  scanLoop 0 (idata.take n) ++ odata.drop n

/-- Modelled from the spec (§4.2): the single linear pass of
`compactWithoutScan`, with `k` the write cursor that advances only on
retained (non-zero) elements. -/
def compactWithoutScanAux : List Int → List Int → Nat → Nat × List Int
  | [], odata, k => (k, odata)
  | x :: xs, odata, k =>
    if x = 0 then compactWithoutScanAux xs odata k
    else compactWithoutScanAux xs (odata.set k x) (k + 1)

/-- Modelled from the spec (§4.2): `compactWithoutScan(n, odata, idata)`
copies every non-zero element of `idata[0..n)` to the front of `odata`
in order and returns the retained count. -/
def compactWithoutScan (n : Nat) (odata idata : List Int) : Nat × List Int :=
  compactWithoutScanAux (idata.take n) odata 0

/-- Modelled from the spec (§4.3a): the 0/1 mask, `1` exactly where the
element is non-zero. -/
def maskOf (l : List Int) : List Int :=
  l.map (fun x => if x = 0 then 0 else 1)

/-- Modelled from the spec (§4.3c): the scatter pass.  Walking the input,
its mask and the scanned mask in lockstep, each element whose mask bit
is `1` is written into the output buffer at its scanned value. -/
def scatterGo : List Int → List Int → List Int → List Int → List Int
  | x :: xs, m :: ms, s :: ss, odata =>
      scatterGo xs ms ss (if m = 1 then odata.set s.toNat x else odata)
  | _, _, _, odata => odata

/-- Modelled from the spec (§4.3): `compactWithScan(n, odata, idata)`
builds the mask, scans it with the `scan` operation of §4.1 into a local
scratch buffer of size `n` (timing suppressed on the inner call), and
scatters.  The returned count is the final scanned value plus the last
mask bit, and `0` when `n = 0`. -/
def compactWithScan (n : Nat) (odata idata : List Int) : Nat × List Int :=
  let id := idata.take n
  let m := maskOf id
  let s := scan n (List.replicate n 0) m false
  ((s.getLast?.getD 0 + m.getLast?.getD 0).toNat, scatterGo id m s odata)

/-- Number of non-zero entries of a list (the number of mask bits set). -/
def nzCount (l : List Int) : Nat :=
  (l.filter (fun x => decide (x ≠ 0))).length

/-- The operations as transforms of the caller's memory, the state being
the pair (output buffer, input buffer).  `scan` only writes through the
output buffer, so the input component passes through. -/
def scanState (n : Nat) (timed : Bool) (s : List Int × List Int) :
    List Int × List Int :=
  (scan n s.1 s.2 timed, s.2)

/-- `compactWithoutScan` on the paired memory state: count, new output
buffer, input buffer. -/
def compactWithoutScanState (n : Nat) (s : List Int × List Int) :
    Nat × List Int × List Int :=
  ((compactWithoutScan n s.1 s.2).1, (compactWithoutScan n s.1 s.2).2, s.2)

/-- `compactWithScan` on the paired memory state: count, new output
buffer, input buffer. -/
def compactWithScanState (n : Nat) (s : List Int × List Int) :
    Nat × List Int × List Int :=
  ((compactWithScan n s.1 s.2).1, (compactWithScan n s.1 s.2).2, s.2)

end CPU
end StreamCompaction

namespace StreamCompaction
namespace CPU

theorem scanLoop_length (acc : Int) (l : List Int) :
    (scanLoop acc l).length = l.length := by
  induction l generalizing acc with
  | nil => rfl
  | cons x xs ih => simp [scanLoop, ih]

theorem scanLoop_getD (l : List Int) (acc : Int) (i : Nat) (d : Int)
    (h : i < l.length) :
    (scanLoop acc l).getD i d = acc + (l.take i).sum := by
  induction l generalizing acc i with
  | nil => simp at h
  | cons x xs ih =>
    cases i with
    | zero => simp [scanLoop]
    | succ i =>
      simp only [scanLoop, List.getD_cons_succ, List.take_succ_cons,
        List.sum_cons]
      rw [ih (acc + x) i (by simpa using h)]
      ring

theorem nzCount_cons (x : Int) (xs : List Int) :
    nzCount (x :: xs) = (if x = 0 then 0 else 1) + nzCount xs := by
  by_cases hx : x = 0 <;> simp [nzCount, List.filter_cons, hx] <;> omega

theorem nzCount_le_length (l : List Int) : nzCount l ≤ l.length :=
  List.length_filter_le _ _

theorem compactWithoutScanAux_fst (l odata : List Int) (k : Nat) :
    (compactWithoutScanAux l odata k).1 = k + nzCount l := by
  induction l generalizing odata k with
  | nil => simp [compactWithoutScanAux, nzCount]
  | cons x xs ih =>
    by_cases hx : x = 0 <;>
      simp [compactWithoutScanAux, hx, ih, nzCount_cons] <;> omega

theorem compactWithoutScanAux_length (l odata : List Int) (k : Nat) :
    ((compactWithoutScanAux l odata k).2).length = odata.length := by
  induction l generalizing odata k with
  | nil => rfl
  | cons x xs ih =>
    by_cases hx : x = 0 <;> simp [compactWithoutScanAux, hx, ih]

theorem compactWithoutScanAux_snd (l : List Int) (odata : List Int) (k : Nat)
    (h : k + nzCount l ≤ odata.length) :
    (compactWithoutScanAux l odata k).2 =
      odata.take k ++ l.filter (fun x => decide (x ≠ 0))
        ++ odata.drop (k + nzCount l) := by
  induction l generalizing odata k with
  | nil => simp [compactWithoutScanAux, nzCount, List.take_append_drop]
  | cons x xs ih =>
    by_cases hx : x = 0
    · subst hx
      have hle : k + nzCount xs ≤ odata.length := by
        rw [nzCount_cons] at h; simpa using h
      have hstep : (compactWithoutScanAux (0 :: xs) odata k).2 =
          (compactWithoutScanAux xs odata k).2 := by
        simp [compactWithoutScanAux]
      rw [hstep, ih odata k hle]
      simp [List.filter_cons, nzCount_cons]
    · have hnz : nzCount (x :: xs) = 1 + nzCount xs := by
        rw [nzCount_cons]; simp [hx]
      have hk : k < odata.length := by omega
      have hle : (k + 1) + nzCount xs ≤ (odata.set k x).length := by
        simp only [List.length_set]; omega
      have hA : (odata.set k x).take (k + 1) = odata.take k ++ [x] := by
        rw [List.set_eq_take_cons_drop x hk, List.take_append_eq_append_take]
        have h1 : (odata.take k).length = k := List.length_take_of_le hk.le
        rw [h1, List.take_take]
        simp
      have hB : (odata.set k x).drop ((k + 1) + nzCount xs) =
          odata.drop ((k + 1) + nzCount xs) :=
        List.drop_set_of_lt x odata (by omega)
      have hstep : (compactWithoutScanAux (x :: xs) odata k).2 =
          (compactWithoutScanAux xs (odata.set k x) (k + 1)).2 := by
        simp [compactWithoutScanAux, hx]
      have harith : (k + 1) + nzCount xs = k + (1 + nzCount xs) := by omega
      rw [hstep, ih (odata.set k x) (k + 1) hle, hA, hB, harith,
        List.filter_cons_of_pos (by simp [hx]), hnz]
      simp [List.append_assoc]

theorem maskOf_cons (x : Int) (xs : List Int) :
    maskOf (x :: xs) = (if x = 0 then 0 else 1) :: maskOf xs := rfl

theorem maskOf_length (l : List Int) : (maskOf l).length = l.length := by
  simp [maskOf]

theorem maskOf_sum (l : List Int) : (maskOf l).sum = (nzCount l : Int) := by
  induction l with
  | nil => simp [maskOf, nzCount]
  | cons x xs ih =>
    by_cases hx : x = 0 <;>
      simp [maskOf_cons, hx, ih, nzCount_cons] <;> push_cast <;> ring

theorem scatterGo_eq_compactWithoutScanAux (l odata : List Int) (k : Nat) :
    scatterGo l (maskOf l) (scanLoop (k : Int) (maskOf l)) odata =
      (compactWithoutScanAux l odata k).2 := by
  induction l generalizing odata k with
  | nil => rfl
  | cons x xs ih =>
    by_cases hx : x = 0
    · subst hx
      have h0 : scatterGo (0 :: xs) (maskOf (0 :: xs))
          (scanLoop (k : Int) (maskOf (0 :: xs))) odata =
          scatterGo xs (maskOf xs) (scanLoop ((k : Int) + 0) (maskOf xs))
            odata := by
        simp [maskOf, scanLoop, scatterGo]
      rw [h0, add_zero, ih]
      simp [compactWithoutScanAux]
    · have h1 : scatterGo (x :: xs) (maskOf (x :: xs))
          (scanLoop (k : Int) (maskOf (x :: xs))) odata =
          scatterGo xs (maskOf xs) (scanLoop ((k : Int) + 1) (maskOf xs))
            (odata.set k x) := by
        simp [maskOf, hx, scanLoop, scatterGo]
      have h2 : ((k : Int) + 1) = ((k + 1 : Nat) : Int) := by push_cast; ring
      rw [h1, h2, ih]
      simp [compactWithoutScanAux, hx]

theorem scan_scratch (n : Nat) (m : List Int) (hm : m.length ≤ n) :
    scan n (List.replicate n 0) m false = scanLoop 0 m := by
  simp [scan, List.take_of_length_le hm]

theorem compactWithScan_eq (n : Nat) (odata idata : List Int) :
    compactWithScan n odata idata =
      (((scanLoop 0 (maskOf (idata.take n))).getLast?.getD 0
          + (maskOf (idata.take n)).getLast?.getD 0).toNat,
        scatterGo (idata.take n) (maskOf (idata.take n))
          (scanLoop 0 (maskOf (idata.take n))) odata) := by
  have hm : (maskOf (idata.take n)).length ≤ n := by
    rw [maskOf_length]
    exact List.length_take_le n idata
  simp only [compactWithScan]
  rw [scan_scratch n _ hm]

theorem scanLoop_getLast_add (x : Int) (xs : List Int) (acc : Int) :
    (scanLoop acc (x :: xs)).getLast?.getD 0 + (x :: xs).getLast?.getD 0 =
      acc + (x :: xs).sum := by
  induction xs generalizing acc x with
  | nil => simp [scanLoop]
  | cons y ys ih =>
    have h1 : scanLoop acc (x :: y :: ys) =
        acc :: scanLoop (acc + x) (y :: ys) := rfl
    have h2 : scanLoop (acc + x) (y :: ys) =
        (acc + x) :: scanLoop (acc + x + y) ys := rfl
    rw [h1, h2, List.getLast?_cons_cons, List.getLast?_cons_cons, ← h2,
      ih y (acc + x)]
    simp [List.sum_cons]
    ring

theorem compactWithoutScan_fst (n : Nat) (odata idata : List Int) :
    (compactWithoutScan n odata idata).1 = nzCount (idata.take n) := by
  simp [compactWithoutScan, compactWithoutScanAux_fst]

theorem compactWithScan_fst (n : Nat) (odata idata : List Int) :
    (compactWithScan n odata idata).1 = nzCount (idata.take n) := by
  rw [compactWithScan_eq]
  cases hl : idata.take n with
  | nil => simp [maskOf, scanLoop, nzCount]
  | cons x xs =>
    rw [maskOf_cons]
    rw [scanLoop_getLast_add, zero_add, ← maskOf_cons, maskOf_sum]
    simp

theorem compactWithScan_snd (n : Nat) (odata idata : List Int) :
    (compactWithScan n odata idata).2 = (compactWithoutScan n odata idata).2 := by
  rw [compactWithScan_eq, compactWithoutScan]
  have h := scatterGo_eq_compactWithoutScanAux (idata.take n) odata 0
  simpa using h

theorem scanLoop_length_take (n : Nat) (idata : List Int)
    (hi : n ≤ idata.length) :
    (scanLoop 0 (idata.take n)).length = n := by
  rw [scanLoop_length, List.length_take_of_le hi]

theorem compactWithoutScan_take (n : Nat) (odata idata : List Int)
    (ho : n ≤ odata.length) :
    ((compactWithoutScan n odata idata).2).take
        (compactWithoutScan n odata idata).1
      = (idata.take n).filter (fun x => decide (x ≠ 0)) := by
  have hc : nzCount (idata.take n) ≤ odata.length :=
    le_trans (le_trans (nzCount_le_length _) (List.length_take_le n idata)) ho
  rw [compactWithoutScan_fst, compactWithoutScan,
    compactWithoutScanAux_snd _ _ 0 (by simpa using hc)]
  simp only [List.take_zero, List.nil_append, Nat.zero_add]
  exact List.take_left' rfl

theorem getD_take_eq (l : List Int) (n i : Nat) (h : i < n) (d : Int) :
    (l.take n).getD i d = l.getD i d := by
  simp [List.getD_eq_getElem?_getD, List.getElem?_take, h]

theorem getLast_getD (l : List Int) (d : Int) :
    l.getLast?.getD d = l.getD (l.length - 1) d := by
  rw [List.getLast?_eq_getElem?, List.getD_eq_getElem?_getD]

theorem nzCount_nil : nzCount [] = 0 := rfl

theorem nzCount_take_lt_getD (l : List Int) (i : Nat) (h : i < l.length)
    (hnz : l.getD i 0 ≠ 0) :
    nzCount (l.take i) < nzCount l
    ∧ (l.filter (fun x => decide (x ≠ 0))).getD (nzCount (l.take i)) 0
      = l.getD i 0 := by
  induction l generalizing i with
  | nil => simp at h
  | cons x xs ih =>
    cases i with
    | zero =>
      have hx : x ≠ 0 := by simpa using hnz
      constructor
      · simp only [List.take_zero, nzCount_nil, nzCount_cons, if_neg hx]
        omega
      · rw [List.take_zero, nzCount_nil,
          List.filter_cons_of_pos (by simp [hx])]
        simp
    | succ i =>
      have hi2 : i < xs.length := by simpa using h
      have hnz2 : xs.getD i 0 ≠ 0 := by simpa using hnz
      obtain ⟨ih1, ih2⟩ := ih i hi2 hnz2
      by_cases hx : x = 0
      · subst hx
        constructor
        · simpa [List.take_succ_cons, nzCount_cons] using ih1
        · simpa [List.take_succ_cons, nzCount_cons, List.filter_cons]
            using ih2
      · constructor
        · simp only [List.take_succ_cons, nzCount_cons, if_neg hx]
          omega
        · rw [List.take_succ_cons, nzCount_cons, if_neg hx,
            List.filter_cons_of_pos (by simp [hx]),
            Nat.add_comm 1 (nzCount (xs.take i))]
          simpa using ih2

theorem maskOf_take (l : List Int) (i : Nat) :
    (maskOf l).take i = maskOf (l.take i) := by
  simp [maskOf]

theorem filter_eq_self_of_nozero (l : List Int) (h0 : ∀ x ∈ l, x ≠ 0) :
    l.filter (fun x => decide (x ≠ 0)) = l := by
  rw [List.filter_eq_self]
  intro a ha
  simpa using h0 a ha

theorem nzCount_eq_length (l : List Int) (h0 : ∀ x ∈ l, x ≠ 0) :
    nzCount l = l.length := by
  unfold nzCount
  rw [filter_eq_self_of_nozero l h0]

end CPU
end StreamCompaction

namespace StreamCompaction
namespace CPU

/-- Claim C1: for every length `n` and every input, `compactWithScan` and
`compactWithoutScan` return identical counts and identical retained
prefixes of the output buffer. -/
theorem c1_compact_equivalence (n : Nat) (odata idata : List Int) :
    (compactWithScan n odata idata).1 = (compactWithoutScan n odata idata).1
    ∧ ((compactWithScan n odata idata).2).take
        (compactWithScan n odata idata).1
      = ((compactWithoutScan n odata idata).2).take
          (compactWithoutScan n odata idata).1 := by
  constructor
  · rw [compactWithScan_fst, compactWithoutScan_fst]
  · rw [compactWithScan_snd, compactWithScan_fst, compactWithoutScan_fst]

/-- Claim C2: after `scan(n, odata, idata)`, entry `i` of the output
buffer is the exclusive prefix sum `idata[0] + ... + idata[i-1]` for
every `i < n` (in particular entry `0` is `0`). -/
theorem c2_scan_running_total (n : Nat) (odata idata : List Int)
    (timed : Bool) (hi : n ≤ idata.length) (ho : n ≤ odata.length)
    (i : Nat) (hin : i < n) :
    (scan n odata idata timed).getD i 0 = (idata.take i).sum := by
  have hlen : (scanLoop 0 (idata.take n)).length = n :=
    scanLoop_length_take n idata hi
  rw [scan, List.getD_eq_getElem?_getD, List.getElem?_append_left (by omega),
    ← List.getD_eq_getElem?_getD,
    scanLoop_getD _ _ _ _ (by rw [List.length_take_of_le hi]; omega),
    List.take_take, Nat.min_eq_left hin.le, zero_add]

/-- Claim C3: both compactions write, as the retained prefix of the
output buffer, exactly the non-zero elements of `idata[0..n)` in their
original relative order (stable filtering with predicate value ≠ 0). -/
theorem c3_compact_stable_filter (n : Nat) (odata idata : List Int)
    (ho : n ≤ odata.length) :
    ((compactWithoutScan n odata idata).2).take
        (compactWithoutScan n odata idata).1
      = (idata.take n).filter (fun x => decide (x ≠ 0))
    ∧ ((compactWithScan n odata idata).2).take
        (compactWithScan n odata idata).1
      = (idata.take n).filter (fun x => decide (x ≠ 0)) := by
  refine ⟨compactWithoutScan_take n odata idata ho, ?_⟩
  rw [compactWithScan_snd, compactWithScan_fst,
    ← compactWithoutScan_fst n odata idata]
  exact compactWithoutScan_take n odata idata ho

/-- Claim C4: the count returned by either compaction equals the number
of non-zero elements of `idata[0..n)`, and it is at most `n`. -/
theorem c4_count_correct (n : Nat) (odata idata : List Int)
    (hi : n ≤ idata.length) :
    (compactWithoutScan n odata idata).1 = nzCount (idata.take n)
    ∧ (compactWithScan n odata idata).1 = nzCount (idata.take n)
    ∧ (compactWithoutScan n odata idata).1 ≤ n
    ∧ (compactWithScan n odata idata).1 ≤ n := by
  have hle : nzCount (idata.take n) ≤ n :=
    le_trans (nzCount_le_length _) (List.length_take_le n idata)
  refine ⟨compactWithoutScan_fst n odata idata,
    compactWithScan_fst n odata idata, ?_, ?_⟩
  · rw [compactWithoutScan_fst]
    exact hle
  · rw [compactWithScan_fst]
    exact hle

/-- Claim C5: for `n ≥ 1` the count returned by `compactWithScan` is the
scanned mask value at index `n-1` plus the mask bit at `n-1`, which
equals the total number of mask bits set, and every retained element is
scattered into the output buffer at the index given by its scanned mask
value. -/
theorem c5_mask_scan_scatter (n : Nat) (odata idata : List Int)
    (hn : 1 ≤ n) (hi : n ≤ idata.length) (ho : n ≤ odata.length) :
    (compactWithScan n odata idata).1
      = ((scanLoop 0 (maskOf (idata.take n))).getD (n - 1) 0
          + (maskOf (idata.take n)).getD (n - 1) 0).toNat
    ∧ (compactWithScan n odata idata).1 = nzCount (idata.take n)
    ∧ ∀ i, i < n → idata.getD i 0 ≠ 0 →
        ((compactWithScan n odata idata).2).getD
            ((scanLoop 0 (maskOf (idata.take n))).getD i 0).toNat 0
          = idata.getD i 0 := by
  have hmlen : (maskOf (idata.take n)).length = n := by
    rw [maskOf_length, List.length_take_of_le hi]
  have hslen : (scanLoop 0 (maskOf (idata.take n))).length = n := by
    rw [scanLoop_length, hmlen]
  refine ⟨?_, compactWithScan_fst n odata idata, ?_⟩
  · rw [compactWithScan_eq, getLast_getD, getLast_getD, hmlen, hslen]
  · intro i hin hnzi
    have hid : (idata.take n).getD i 0 = idata.getD i 0 :=
      getD_take_eq idata n i hin 0
    have hidlen : i < (idata.take n).length := by
      rw [List.length_take_of_le hi]
      exact hin
    have hsc : (scanLoop 0 (maskOf (idata.take n))).getD i 0
        = (nzCount ((idata.take n).take i) : Int) := by
      rw [scanLoop_getD _ _ _ _ (by rw [hmlen]; exact hin), zero_add,
        maskOf_take, maskOf_sum]
    obtain ⟨hlt, hat⟩ := nzCount_take_lt_getD (idata.take n) i hidlen
      (by rw [hid]; exact hnzi)
    have hc : nzCount (idata.take n) ≤ odata.length :=
      le_trans (le_trans (nzCount_le_length _) (List.length_take_le n idata))
        ho
    rw [compactWithScan_snd, compactWithoutScan,
      compactWithoutScanAux_snd _ _ 0 (by simpa using hc), hsc,
      Int.toNat_ofNat]
    simp only [List.take_zero, List.nil_append, Nat.zero_add]
    rw [List.getD_eq_getElem?_getD,
      List.getElem?_append_left (by exact hlt),
      ← List.getD_eq_getElem?_getD, hat, hid]

/-- Claim C6: a zero-free input compacts to count `n` with output prefix
equal to the input, and compacting the valid prefix of a previous
compaction's output again returns the same count and an identical
prefix. -/
theorem c6_idempotent (n : Nat) (odata odata2 idata : List Int)
    (hi : n ≤ idata.length) (ho : n ≤ odata.length)
    (ho2 : n ≤ odata2.length) :
    ((∀ x ∈ idata.take n, x ≠ 0) →
      (compactWithoutScan n odata idata).1 = n
      ∧ ((compactWithoutScan n odata idata).2).take n = idata.take n)
    ∧ (compactWithoutScan (compactWithoutScan n odata idata).1 odata2
          (((compactWithoutScan n odata idata).2).take
            (compactWithoutScan n odata idata).1)).1
        = (compactWithoutScan n odata idata).1
    ∧ ((compactWithoutScan (compactWithoutScan n odata idata).1 odata2
          (((compactWithoutScan n odata idata).2).take
            (compactWithoutScan n odata idata).1)).2).take
          (compactWithoutScan n odata idata).1
        = ((compactWithoutScan n odata idata).2).take
            (compactWithoutScan n odata idata).1 := by
  have hkval : (compactWithoutScan n odata idata).1
      = nzCount (idata.take n) := compactWithoutScan_fst n odata idata
  have hpre : ((compactWithoutScan n odata idata).2).take
        (compactWithoutScan n odata idata).1
      = (idata.take n).filter (fun x => decide (x ≠ 0)) :=
    compactWithoutScan_take n odata idata ho
  have hF0 : ∀ x ∈ (idata.take n).filter (fun x => decide (x ≠ 0)),
      x ≠ 0 := by
    intro x hx
    have := List.of_mem_filter hx
    simpa using this
  have hFlen : ((idata.take n).filter (fun x => decide (x ≠ 0))).length
      = nzCount (idata.take n) := rfl
  have hfst2 : (compactWithoutScan (compactWithoutScan n odata idata).1
      odata2 (((compactWithoutScan n odata idata).2).take
        (compactWithoutScan n odata idata).1)).1
      = (compactWithoutScan n odata idata).1 := by
    rw [hpre, compactWithoutScan_fst, hkval,
      List.take_of_length_le hFlen.le, nzCount_eq_length _ hF0, hFlen]
  refine ⟨?_, hfst2, ?_⟩
  · intro h0
    have hall : nzCount (idata.take n) = n := by
      rw [nzCount_eq_length _ h0, List.length_take_of_le hi]
    have hn2 : (compactWithoutScan n odata idata).1 = n := by
      rw [hkval, hall]
    refine ⟨hn2, ?_⟩
    rw [hn2] at hpre
    rw [hpre, filter_eq_self_of_nozero _ h0]
  · have hk2 : (compactWithoutScan n odata idata).1 ≤ odata2.length := by
      rw [hkval]
      exact le_trans (le_trans (nzCount_le_length _)
        (List.length_take_le n idata)) ho2
    have hsecond := compactWithoutScan_take
      (compactWithoutScan n odata idata).1 odata2
      (((compactWithoutScan n odata idata).2).take
        (compactWithoutScan n odata idata).1) hk2
    rw [hfst2] at hsecond
    rw [hsecond, List.take_take, Nat.min_self, hpre,
      filter_eq_self_of_nozero _ hF0]

/-- Claim C7: on the paired memory state (output buffer, input buffer),
none of the three operations changes the input-buffer component. -/
theorem c7_input_buffer_unchanged (n : Nat) (timed : Bool)
    (s : List Int × List Int) :
    (scanState n timed s).2 = s.2
    ∧ (compactWithoutScanState n s).2.2 = s.2
    ∧ (compactWithScanState n s).2.2 = s.2 :=
  ⟨rfl, rfl, rfl⟩

/-- Claim C8: `scan` keeps the output buffer's length, leaves every entry
at index `n` or beyond unchanged, and the entries below `n` are fully
overwritten: they do not depend on the previous contents of the output
buffer.  Moreover no operation reallocates or resizes the caller's
output buffer: both compactions also keep its length. -/
theorem c8_scan_frame (n : Nat) (odata idata : List Int) (timed : Bool)
    (hi : n ≤ idata.length) (ho : n ≤ odata.length) :
    (scan n odata idata timed).length = odata.length
    ∧ (∀ i, n ≤ i →
        (scan n odata idata timed).getD i 0 = odata.getD i 0)
    ∧ (∀ odata2, odata2.length = odata.length → ∀ i, i < n →
        (scan n odata idata timed).getD i 0
          = (scan n odata2 idata timed).getD i 0)
    ∧ ((compactWithoutScan n odata idata).2).length = odata.length
    ∧ ((compactWithScan n odata idata).2).length = odata.length := by
  have hlen : (scanLoop 0 (idata.take n)).length = n :=
    scanLoop_length_take n idata hi
  refine ⟨?_, ?_, ?_, ?_, ?_⟩
  · rw [scan, List.length_append, hlen, List.length_drop]
    omega
  · intro i hni
    rw [scan, List.getD_eq_getElem?_getD,
      List.getElem?_append_right (by omega), hlen, List.getElem?_drop]
    have hadd : n + (i - n) = i := by omega
    rw [hadd, ← List.getD_eq_getElem?_getD]
  · intro odata2 hlen2 i hin
    rw [scan, scan, List.getD_eq_getElem?_getD, List.getD_eq_getElem?_getD,
      List.getElem?_append_left (by omega),
      List.getElem?_append_left (by omega)]
  · rw [compactWithoutScan]
    exact compactWithoutScanAux_length _ _ _
  · rw [compactWithScan_snd, compactWithoutScan]
    exact compactWithoutScanAux_length _ _ _

/-- Claim C9: with `n = 0`, `scan` leaves the output buffer untouched and
both compactions return count `0`, with no condition on the buffers (the
empty input is covered); with `n = 1` and a non-empty input, `scan`
writes `0` into entry `0` whatever the input value is. -/
theorem c9_degenerate_lengths (odata idata : List Int) (timed : Bool) :
    scan 0 odata idata timed = odata
    ∧ (compactWithoutScan 0 odata idata).1 = 0
    ∧ (compactWithScan 0 odata idata).1 = 0
    ∧ (1 ≤ idata.length → (scan 1 odata idata timed).getD 0 0 = 0) := by
  refine ⟨?_, rfl, ?_, ?_⟩
  · simp [scan, scanLoop]
  · simp [compactWithScan_fst, nzCount]
  · intro h2
    obtain ⟨x, xs, rfl⟩ : ∃ x xs, idata = x :: xs := by
      cases idata with
      | nil => simp at h2
      | cons x xs => exact ⟨x, xs, rfl⟩
    simp [scan, scanLoop]

/-- Claim C10: the numeric results depend only on `n` and the buffer
contents: the `timed` flag never changes the result of `scan`, and
repeated calls on equal arguments give equal results. -/
theorem c10_pure_deterministic (n : Nat) (odata idata : List Int)
    (t t2 : Bool) :
    scan n odata idata t = scan n odata idata t2
    ∧ scanState n t (odata, idata) = scanState n t2 (odata, idata)
    ∧ scan n odata idata t = scan n odata idata t
    ∧ compactWithoutScan n odata idata = compactWithoutScan n odata idata
    ∧ compactWithScan n odata idata = compactWithScan n odata idata :=
  ⟨rfl, rfl, rfl, rfl, rfl⟩

/-- Witness for C2 at the spec's concrete scenario. -/
theorem c2_scan_running_total_witness :
    (scan 5 [9, 9, 9, 9, 9] [1, 0, 3, 0, 5] true).getD 3 0 =
      (([1, 0, 3, 0, 5] : List Int).take 3).sum :=
  c2_scan_running_total 5 [9, 9, 9, 9, 9] [1, 0, 3, 0, 5] true
    (by decide) (by decide) 3 (by decide)

/-- Witness for C3 at the spec's concrete scenario. -/
theorem c3_compact_stable_filter_witness :
    ((compactWithoutScan 5 [9, 9, 9, 9, 9] [1, 0, 3, 0, 5]).2).take
        (compactWithoutScan 5 [9, 9, 9, 9, 9] [1, 0, 3, 0, 5]).1
      = (([1, 0, 3, 0, 5] : List Int).take 5).filter
          (fun x => decide (x ≠ 0))
    ∧ ((compactWithScan 5 [9, 9, 9, 9, 9] [1, 0, 3, 0, 5]).2).take
        (compactWithScan 5 [9, 9, 9, 9, 9] [1, 0, 3, 0, 5]).1
      = (([1, 0, 3, 0, 5] : List Int).take 5).filter
          (fun x => decide (x ≠ 0)) :=
  c3_compact_stable_filter 5 [9, 9, 9, 9, 9] [1, 0, 3, 0, 5] (by decide)

/-- Witness for C4 at the spec's concrete scenario. -/
theorem c4_count_correct_witness :
    (compactWithoutScan 5 [9, 9, 9, 9, 9] [1, 0, 3, 0, 5]).1
        = nzCount (([1, 0, 3, 0, 5] : List Int).take 5)
    ∧ (compactWithScan 5 [9, 9, 9, 9, 9] [1, 0, 3, 0, 5]).1
        = nzCount (([1, 0, 3, 0, 5] : List Int).take 5)
    ∧ (compactWithoutScan 5 [9, 9, 9, 9, 9] [1, 0, 3, 0, 5]).1 ≤ 5
    ∧ (compactWithScan 5 [9, 9, 9, 9, 9] [1, 0, 3, 0, 5]).1 ≤ 5 :=
  c4_count_correct 5 [9, 9, 9, 9, 9] [1, 0, 3, 0, 5] (by decide)

/-- Witness for C5: the retained element at index 2 of the scenario input
lands at its scanned destination. -/
theorem c5_mask_scan_scatter_witness :
    ((compactWithScan 5 [9, 9, 9, 9, 9] [1, 0, 3, 0, 5]).2).getD
        ((scanLoop 0 (maskOf (([1, 0, 3, 0, 5] : List Int).take 5))).getD
          2 0).toNat 0
      = ([1, 0, 3, 0, 5] : List Int).getD 2 0 :=
  (c5_mask_scan_scatter 5 [9, 9, 9, 9, 9] [1, 0, 3, 0, 5] (by decide)
    (by decide) (by decide)).2.2 2 (by decide) (by decide)

/-- Witness for C6: recompacting the compacted prefix of the scenario
input returns the same count. -/
theorem c6_idempotent_witness :
    (compactWithoutScan (compactWithoutScan 5 [9, 9, 9, 9, 9]
        [1, 0, 3, 0, 5]).1 [8, 8, 8, 8, 8]
        (((compactWithoutScan 5 [9, 9, 9, 9, 9] [1, 0, 3, 0, 5]).2).take
          (compactWithoutScan 5 [9, 9, 9, 9, 9] [1, 0, 3, 0, 5]).1)).1
      = (compactWithoutScan 5 [9, 9, 9, 9, 9] [1, 0, 3, 0, 5]).1 :=
  (c6_idempotent 5 [9, 9, 9, 9, 9] [8, 8, 8, 8, 8] [1, 0, 3, 0, 5]
    (by decide) (by decide) (by decide)).2.1

/-- Witness for C8: `scan` with `n = 3` leaves entry 3 of a length-4
output buffer unchanged. -/
theorem c8_scan_frame_witness :
    (scan 3 [9, 9, 9, 9] [1, 2, 3, 4] true).getD 3 0 =
      ([9, 9, 9, 9] : List Int).getD 3 0 :=
  (c8_scan_frame 3 [9, 9, 9, 9] [1, 2, 3, 4] true (by decide)
    (by decide)).2.1 3 (by decide)

/-- Witness for C9 at the spec's empty scenario (`idata = []`, `n = 0`)
and at a singleton input for the `n = 1` clause. -/
theorem c9_degenerate_lengths_witness :
    scan 0 ([] : List Int) [] true = ([] : List Int)
    ∧ (compactWithoutScan 0 ([] : List Int) []).1 = 0
    ∧ (compactWithScan 0 ([] : List Int) []).1 = 0
    ∧ (scan 1 [7] [4] true).getD 0 0 = 0 :=
  ⟨(c9_degenerate_lengths [] [] true).1,
    (c9_degenerate_lengths [] [] true).2.1,
    (c9_degenerate_lengths [] [] true).2.2.1,
    (c9_degenerate_lengths [7] [4] true).2.2.2 (by decide)⟩

end CPU
end StreamCompaction
